import Mathlib

set_option maxHeartbeats 1000000

/-!
Verification of the AMF health/cnode sidecar protocols
(`src/NFs/amf/amf-health.c`, `src/NFs/amf/cnode/amf_cnode.c`).

Byte streams are modelled as `List Nat`; `recv` delivers one list element
at a time (an element stands for the byte value, normalised modulo 256
where the C code stores it into a `uint8_t`).  Machine integers are
modelled as `Nat`/`Int` with explicit truncation: `toInt32` is the C
cast of an unsigned value to a 32-bit signed `int`, and the 64-bit
accumulator arithmetic of the varint reader is taken modulo `2 ^ 64`.
Fallible operations return `Option`.
-/

/-- The C cast `(int)v` applied to an unsigned value: truncate to 32 bits
and reinterpret as two's-complement signed. -/
def toInt32 (n : Nat) : Int :=
  let m : Nat := n % 2 ^ 32
  if m < 2 ^ 31 then (m : Int) else (m : Int) - 2 ^ 32

/-- The `while (total < msg_len) recv(...)` loop shared by both readers:
read exactly `n` bytes from the stream into the buffer (each byte stored
into a `uint8_t`, hence `% 256`), failing if the stream ends first.
Returns the bytes read and the remaining stream. -/
def readExact : Nat → List Nat → Option (List Nat × List Nat)
  | 0, s => some ([], s)
  | _ + 1, [] => none
  | n + 1, b :: s =>
      match readExact n s with
      | none => none
      | some (p, r) => some (b % 256 :: p, r)

namespace AmfHealth

/-- `varint_encode` from `amf-health.c`: the do/while body, with the fuel
argument standing for the remaining buffer capacity `bufsz - n` (the
`n >= bufsz` check fails exactly when the fuel is exhausted). -/
def varint_encode_aux : Nat → Nat → Option (List Nat)
  | 0, _ => none
  | fuel + 1, v =>
      let b := v % 128
      if v / 128 = 0 then some [b]
      else
        match varint_encode_aux fuel (v / 128) with
        | none => none
        | some l => some ((b + 128) :: l)

/-- `varint_encode(v, buf, bufsz)`: returns the bytes written, or `none`
for the `-1` overflow return. -/
def varint_encode (v : Nat) (bufsz : Nat) : Option (List Nat) :=
  varint_encode_aux bufsz v

/-- The successful output of `varint_encode v 10` (the 10-byte `lenbuf`
used by `write_delimited`). -/
def varintBytes (v : Nat) : List Nat :=
  (varint_encode v 10).getD []

/-- The prefix loop of `read_delimited`: up to `fuel` (initially 10)
iterations, reading one byte per iteration; `msg_len` is a `uint64_t`
accumulator (`|=` of the low 7 bits shifted, modulo `2 ^ 64`), the loop
stops early when the continuation bit is clear.  Falling out of the loop
after `fuel` iterations is not an error (`some`), matching the C `for`
loop that simply ends.  `none` is the `return -1` on `recv` failure. -/
def readVarint : Nat → Nat → Nat → List Nat → Option (Nat × List Nat)
  | 0, acc, _, s => some (acc, s)
  | _ + 1, _, _, [] => none
  | fuel + 1, acc, shift, b :: s =>
      let c := b % 256
      let acc2 := (acc ||| (c % 128) <<< shift) % 2 ^ 64
      if c < 128 then some (acc2, s)
      else readVarint fuel acc2 (shift + 7) s

/-- The part of `read_delimited` after the prefix loop: the
`msg_len == 0` early return, the `(int)msg_len > max_len` check and the
body-read loop (`while (total < (int)msg_len)`), returning
`(return value, bytes stored in buf, remaining stream)`;
an error return is `-1`. -/
def read_body (msg_len : Nat) (s : List Nat) (max_len : Int) :
    Int × List Nat × List Nat :=
  if msg_len = 0 then (0, [], s)
  else
    let m := toInt32 msg_len
    if m > max_len then (-1, [], s)
    else if m ≤ 0 then (0, [], s)
    else
      match readExact m.toNat s with
      | none => (-1, s, [])
      | some (p, r) => (m, p, r)

/-- `read_delimited(fd, buf, max_len)` over a byte stream: result is
`(return value, bytes stored in buf, remaining stream)`. -/
def read_delimited (s : List Nat) (max_len : Int) :
    Int × List Nat × List Nat :=
  match readVarint 10 0 0 s with
  | none => (-1, [], [])
  | some (msg_len, s1) => read_body msg_len s1 max_len

/-- `write_delimited(fd, data, data_len)`: the bytes put on the wire
(`none` for the `-1` return when `varint_encode` overflows). -/
def write_delimited (data : List Nat) : Option (List Nat) :=
  match varint_encode data.length 10 with
  | none => none
  | some lenbuf => some (lenbuf ++ data)

/-- `HEALTH_RESP_SERVING` payload `{ 0x08, 0x01 }`. -/
def HEALTH_RESP_SERVING : List Nat := [8, 1]

/-- `handle_connection(cfd)`: read one delimited request into the 64-byte
`req_buf` (result ignored), then write the SERVING response.  The value
is the byte sequence written back to the client before `close`. -/
def handle_connection (input : List Nat) : List Nat :=
  let _r := read_delimited input 64
  match write_delimited HEALTH_RESP_SERVING with
  | none => []
  | some out => out

/-- The `RegisterRequest` encoding built by `do_registration` into its
256-byte `proto` buffer: field 1 `node_type = 13`, field 2 the ip bytes
(length-delimited), field 3 the port varint.  `none` models the
`goto done` on varint overflow. -/
def do_registration_proto (ip : List Nat) (port : Nat) : Option (List Nat) :=
  match varint_encode ip.length (256 - 3) with
  | none => none
  | some lenb =>
      match varint_encode port (256 - (3 + lenb.length + ip.length + 1)) with
      | none => none
      | some portb => some ([8, 13] ++ [18] ++ lenb ++ ip ++ [24] ++ portb)

/-- `amf_health_send_registration`: whether a registration task is
spawned, as a function of the registration config (`g_reg_enable`,
`g_reg_server_ip` as a byte string, `g_reg_server_port`) and of whether
`pthread_create` succeeds. -/
def amf_health_send_registration (g_reg_enable : Bool) (g_reg_server_ip : List Nat)
    (g_reg_server_port : Nat) (spawn_ok : Bool) : Bool :=
  if ¬ g_reg_enable then false
  else if g_reg_server_ip = [] ∨ g_reg_server_port = 0 then false
  else spawn_ok

/-- The health-server globals touched by `amf_health_close`. -/
structure HealthState where
  server_fd : Int
  server_running : Bool
  deriving DecidableEq

/-- Initial state: `server_fd = -1`, `server_running = 0` (no open yet,
or open returned in the disabled configuration). -/
def health_init : HealthState := { server_fd := -1, server_running := false }

/-- `amf_health_close`: early return when `server_fd < 0`; otherwise
clear the running flag, close and reset the fd, join the thread. -/
def amf_health_close (s : HealthState) : HealthState :=
  if s.server_fd < 0 then s
  else { server_fd := -1, server_running := false }

end AmfHealth

namespace AmfCnode

/-- The 4 bytes of a `uint32_t` in little-endian order, as sent/parsed by
`write_framed` / `read_framed`. -/
def le4 (n : Nat) : List Nat :=
  [n % 256, n / 256 % 256, n / 65536 % 256, n / 16777216 % 256]

/-- `read_framed(fd, buf, max_len)`: read the 4-byte LE length header,
then the `payload_len == 0` early return, the `(int)payload_len > max_len`
check, and the body loop `while (total < (int)payload_len)`; the final
return value is `(int)payload_len`.  Result is
`(return value, bytes stored in buf, remaining stream)`. -/
def read_framed (s : List Nat) (max_len : Int) : Int × List Nat × List Nat :=
  match s with
  | b0 :: b1 :: b2 :: b3 :: s1 =>
      let payload_len :=
        b0 % 256 + b1 % 256 * 256 + b2 % 256 * 65536 + b3 % 256 * 16777216
      if payload_len = 0 then (0, [], s1)
      else
        let m := toInt32 payload_len
        if m > max_len then (-1, [], s1)
        else if m ≤ 0 then (m, [], s1)
        else
          match readExact m.toNat s1 with
          | none => (-1, s1, [])
          | some (p, r) => (m, p, r)
  | _ => (-1, [], [])

/-- `write_framed(fd, data, data_len)`: the bytes put on the wire — the
4-byte LE header holding `(uint32_t)data_len`, then the payload. -/
def write_framed (data : List Nat) : List Nat :=
  le4 (data.length % 2 ^ 32) ++ data

/-- `NODETYPE_AMF` payload `{ 0x08, 0x0D }`. -/
def NODETYPE_AMF : List Nat := [8, 13]

/-- `HEALTH_RESP_SERVING` payload `{ 0x08, 0x01 }` (cnode copy). -/
def HEALTH_RESP_SERVING : List Nat := [8, 1]

/-- One iteration of the `serve_session` health-check loop once `poll`
reports readability: `read_framed` into the 256-byte `req_buf`; a
negative return breaks the loop (`none`), otherwise the SERVING reply is
written.  Result: bytes written and the remaining input stream. -/
def session_step (s : List Nat) : Option (List Nat × List Nat) :=
  let r := read_framed s 256
  if r.1 < 0 then none
  else some (write_framed HEALTH_RESP_SERVING, r.2.2)

/-- The `serve_session` inner loop, unrolled over the incoming byte
stream with explicit fuel: concatenation of everything written until the
loop breaks (or the fuel ends). -/
def serve_loop : Nat → List Nat → List Nat
  | 0, _ => []
  | fuel + 1, s =>
      match session_step s with
      | none => []
      | some (out, s1) => out ++ serve_loop fuel s1

/-- `backoff *= 2; if (backoff > 30) backoff = 30;` from `cnode_thread`. -/
def backoff_step (b : Nat) : Nat :=
  if b * 2 > 30 then 30 else b * 2

/-- The value of `backoff` when entering the sleep after the `(n+1)`-th
failed session (starting value 1, updated by `backoff_step` after each
sleep). -/
def backoff_after : Nat → Nat
  | 0 => 1
  | n + 1 => backoff_step (backoff_after n)

/-- The `while (slept < backoff && g_running) { sleep(1); slept++; }`
loop: `running t` is the value of `g_running` observed at second `t`;
the first argument is `slept`, the second the remaining
`backoff - slept` seconds.  Returns the total seconds slept. -/
def sleep_loop (running : Nat → Bool) : Nat → Nat → Nat
  | slept, 0 => slept
  | slept, rem + 1 =>
      if running slept then sleep_loop running (slept + 1) rem else slept

/-- Seconds actually slept before the next connection attempt, for a
given `backoff` value. -/
def backoff_delay (running : Nat → Bool) (backoff : Nat) : Nat :=
  sleep_loop running 0 backoff

/-- The cnode global touched by `amf_cnode_stop`. -/
structure CnodeState where
  g_running : Bool
  deriving DecidableEq

/-- Initial state: `g_running = 0` (no start yet, or start returned in
the disabled configuration). -/
def cnode_init : CnodeState := { g_running := false }

/-- `amf_cnode_stop`: early return when `!g_running`; otherwise clear the
flag and join the thread. -/
def amf_cnode_stop (s : CnodeState) : CnodeState :=
  if ¬ s.g_running then s
  else { g_running := false }

/-- `OGS_OK` return code. -/
def OGS_OK : Int := 0

/-- `OGS_ERROR` return code. -/
def OGS_ERROR : Int := -1

/-- `amf_cnode_start`: env values are C strings modelled as byte lists
(`none` = unset); `"1"` is `[49]`.  Port parsing only updates
`g_server_port` and cannot affect the return value or whether the thread
is spawned, so it is not tracked here; `spawn_ok` is whether
`pthread_create` succeeds.  Result: `(return code, thread spawned)`.
This is the part after the enable check: the `AMF_CNODE_SERVER_IP`
check (unset or empty silently disables), then the thread spawn. -/
def amf_cnode_start_sub (env_ip : Option (List Nat)) (spawn_ok : Bool) :
    Int × Bool :=
  match env_ip with
  | none => (OGS_OK, false)
  | some ip =>
      if ip = [] then (OGS_OK, false)
      else if spawn_ok then (OGS_OK, true) else (OGS_ERROR, false)

/-- `amf_cnode_start` proper: the `AMF_CNODE_ENABLE` check (set to
anything other than `"1"` disables), then `amf_cnode_start_sub`. -/
def amf_cnode_start (env_enable env_ip : Option (List Nat))
    (spawn_ok : Bool) : Int × Bool :=
  match env_enable with
  | some e =>
      if e ≠ [49] then (OGS_OK, false)
      else amf_cnode_start_sub env_ip spawn_ok
  | none => amf_cnode_start_sub env_ip spawn_ok

end AmfCnode

/-! ## Helper lemmas -/

/-- Bitwise OR with a shifted value is addition when the low part fits
below the shift. -/
theorem lor_shl_eq_add {a b n : Nat} (h : a < 2 ^ n) :
    a ||| b <<< n = a + b * 2 ^ n := by
  rw [Nat.shiftLeft_eq, Nat.lor_comm, Nat.mul_comm b (2 ^ n),
    ← Nat.mul_add_lt_is_or h b]
  omega

namespace AmfHealth

/-- `varint_encode_aux` succeeds and stays within the fuel whenever the
value has at most `fuel` base-128 digits. -/
theorem varint_encode_aux_total :
    ∀ fuel v, 0 < fuel → v < 128 ^ fuel →
      ∃ bs, varint_encode_aux fuel v = some bs ∧ bs.length ≤ fuel := by
  intro fuel
  induction fuel with
  | zero => omega
  | succ f ih =>
    intro v _ hv
    by_cases hd : v / 128 = 0
    · exact ⟨[v % 128], by simp [varint_encode_aux, hd], by simp⟩
    · have hf : 0 < f := by
        rcases Nat.eq_zero_or_pos f with hf0 | hf0
        · subst hf0
          simp [pow_succ, pow_zero] at hv
          omega
        · exact hf0
      have hv' : v / 128 < 128 ^ f := by
        rw [Nat.div_lt_iff_lt_mul (by norm_num)]
        calc v < 128 ^ (f + 1) := hv
        _ = 128 ^ f * 128 := by rw [pow_succ]
      obtain ⟨bs, hbs, hlen⟩ := ih (v / 128) hf hv'
      exact ⟨(v % 128 + 128) :: bs, by simp [varint_encode_aux, hd, hbs],
        by simpa using hlen⟩

end AmfHealth

namespace AmfHealth

/-- The varint decode loop of `read_delimited` inverts `varint_encode`:
reading the encoded bytes (followed by anything) accumulates exactly the
encoded value on top of a disjoint accumulator. -/
theorem readVarint_encode :
    ∀ fuel v bs fd acc shift (rest : List Nat),
      varint_encode_aux fuel v = some bs → bs.length ≤ fd →
      acc < 2 ^ shift → shift ≤ 63 → v < 2 ^ (64 - shift) →
      readVarint fd acc shift (bs ++ rest) = some (acc + v * 2 ^ shift, rest) := by
  intro fuel
  induction fuel with
  | zero => intro v bs fd acc shift rest h; simp [varint_encode_aux] at h
  | succ f ih =>
    intro v bs fd acc shift rest h hfd hacc hshift hv
    by_cases hd : v / 128 = 0
    · have hv128 : v < 128 := by omega
      have hbs : bs = [v % 128] := by
        have h1 : some [v % 128] = some bs := by
          rw [← h]; simp [varint_encode_aux, hd]
        exact (Option.some_inj.mp h1).symm
      subst hbs
      obtain ⟨fd1, rfl⟩ : ∃ fd1, fd = fd1 + 1 := by
        simp at hfd; exact ⟨fd - 1, by omega⟩
      have hvmod : v % 128 = v := Nat.mod_eq_of_lt hv128
      have hpow : 2 ^ (64 - shift) * 2 ^ shift = 2 ^ 64 := by
        rw [← pow_add]; congr 1; omega
      have hsum : acc + v * 2 ^ shift < 2 ^ 64 := by
        have h2 : (v + 1) * 2 ^ shift ≤ 2 ^ (64 - shift) * 2 ^ shift :=
          Nat.mul_le_mul_right _ (by omega)
        rw [hpow, add_mul, one_mul] at h2
        linarith
      simp only [List.cons_append, List.nil_append, readVarint, hvmod,
        Nat.mod_eq_of_lt (show v < 256 by omega)]
      rw [if_pos hv128, lor_shl_eq_add hacc, Nat.mod_eq_of_lt hsum]
      rfl
    · have hv128 : 128 ≤ v := by omega
      have h' := h
      simp only [varint_encode_aux, if_neg hd] at h'
      cases hrec : varint_encode_aux f (v / 128) with
      | none => rw [hrec] at h'; simp at h'
      | some bs1 =>
        rw [hrec] at h'
        simp only [Option.some_inj] at h'
        subst h'
        obtain ⟨fd1, rfl⟩ : ∃ fd1, fd = fd1 + 1 := by
          simp at hfd; exact ⟨fd - 1, by omega⟩
        have hge : 7 < 64 - shift := by
          by_contra hc
          push_neg at hc
          have : 2 ^ (64 - shift) ≤ 2 ^ 7 :=
            Nat.pow_le_pow_right (by norm_num) hc
          omega
        have hb256 : (v % 128 + 128) % 256 = v % 128 + 128 :=
          Nat.mod_eq_of_lt (by omega)
        have hb128 : (v % 128 + 128) % 128 = v % 128 := by omega
        have hacc2lt : acc + v % 128 * 2 ^ shift < 2 ^ (shift + 7) := by
          have hm : v % 128 * 2 ^ shift ≤ 127 * 2 ^ shift :=
            Nat.mul_le_mul_right _ (by omega)
          have : 2 ^ (shift + 7) = 128 * 2 ^ shift := by
            rw [pow_add]; ring
          linarith
        have hlt64 : acc + v % 128 * 2 ^ shift < 2 ^ 64 := by
          have : (2 : Nat) ^ (shift + 7) ≤ 2 ^ 64 :=
            Nat.pow_le_pow_right (by norm_num) (by omega)
          omega
        have hdivlt : v / 128 < 2 ^ (64 - (shift + 7)) := by
          rw [Nat.div_lt_iff_lt_mul (by norm_num : (0:Nat) < 128)]
          have : 2 ^ (64 - shift) = 2 ^ (64 - (shift + 7)) * 128 := by
            rw [show (128 : Nat) = 2 ^ 7 from rfl, ← pow_add]
            congr 1; omega
          omega
        have step : readVarint (fd1 + 1) acc shift
            (((v % 128 + 128) :: bs1) ++ rest) =
            readVarint fd1 (acc + v % 128 * 2 ^ shift) (shift + 7)
              (bs1 ++ rest) := by
          simp only [List.cons_append, readVarint, hb256, hb128]
          rw [if_neg (by omega), lor_shl_eq_add hacc,
            Nat.mod_eq_of_lt hlt64]
          rfl
        have hsplit : v % 128 * 2 ^ shift + v / 128 * 2 ^ (shift + 7) =
            v * 2 ^ shift := by
          have hp : 2 ^ (shift + 7) = 2 ^ shift * 128 := by
            rw [pow_add]; ring
          calc v % 128 * 2 ^ shift + v / 128 * 2 ^ (shift + 7)
              = (v % 128 + 128 * (v / 128)) * 2 ^ shift := by rw [hp]; ring
          _ = v * 2 ^ shift := by rw [show v % 128 + 128 * (v / 128) = v by omega]
        rw [step]
        have ihr := ih (v / 128) bs1 fd1 (acc + v % 128 * 2 ^ shift)
          (shift + 7) rest hrec (by simpa using hfd) hacc2lt (by omega) hdivlt
        exact ihr.trans (by rw [add_assoc, hsplit])

end AmfHealth

/-- `toInt32` is the identity below `2 ^ 31`. -/
theorem toInt32_eq_of_lt {n : Nat} (h : n < 2 ^ 31) : toInt32 n = (n : Int) := by
  have h32 : n < 2 ^ 32 := lt_trans h (by norm_num)
  unfold toInt32
  rw [Nat.mod_eq_of_lt h32, if_pos h]

/-- `readExact` consumes exactly the first `p.length` bytes. -/
theorem readExact_append :
    ∀ (p rest : List Nat),
      readExact p.length (p ++ rest) = some (p.map (fun b => b % 256), rest) := by
  intro p
  induction p with
  | nil => intro rest; simp [readExact]
  | cons b p ih => intro rest; simp [readExact, ih rest]

/-- A list of bytes is unchanged by the `uint8_t` store. -/
theorem map_mod_of_bytes {p : List Nat} (h : ∀ b ∈ p, b < 256) :
    p.map (fun b => b % 256) = p := by
  induction p with
  | nil => simp
  | cons b p ih =>
    simp only [List.map_cons, List.cons.injEq]
    exact ⟨Nat.mod_eq_of_lt (h b (by simp)), ih fun x hx => h x (by simp [hx])⟩

namespace AmfHealth

/-- `varint_encode v 10` succeeds with at most 10 bytes for every 64-bit
value, and `varintBytes` names its output. -/
theorem varint_encode_ten {v : Nat} (h : v < 2 ^ 64) :
    varint_encode v 10 = some (varintBytes v) ∧ (varintBytes v).length ≤ 10 := by
  obtain ⟨bs, hbs, hlen⟩ := varint_encode_aux_total 10 v (by norm_num)
    (by calc v < 2 ^ 64 := h
        _ ≤ 128 ^ 10 := by norm_num)
  have : varint_encode v 10 = some bs := hbs
  rw [varintBytes, this]
  exact ⟨rfl, hlen⟩

/-- Decoding the encoding of any 64-bit value with the prefix loop of
`read_delimited` recovers the value and consumes nothing else. -/
theorem readVarint_varintBytes {v : Nat} (h : v < 2 ^ 64) (rest : List Nat) :
    readVarint 10 0 0 (varintBytes v ++ rest) = some (v, rest) := by
  obtain ⟨henc, hlen⟩ := varint_encode_ten h
  have := readVarint_encode 10 v (varintBytes v) 10 0 0 rest henc hlen
    (by norm_num) (by norm_num) (by simpa using h)
  simpa using this

/-- Successful path of `read_body`: a payload whose length passes the
bound check is read back exactly. -/
theorem read_body_payload {p rest : List Nat} {max_len : Int}
    (hb : ∀ b ∈ p, b < 256) (hlen : p.length < 2 ^ 31)
    (hml : (p.length : Int) ≤ max_len) :
    read_body p.length (p ++ rest) max_len = ((p.length : Int), p, rest) := by
  rcases Nat.eq_zero_or_pos p.length with h0 | hpos
  · rw [List.length_eq_zero] at h0
    subst h0
    simp [read_body]
  · rw [read_body, if_neg (by omega), toInt32_eq_of_lt hlen]
    rw [if_neg (by omega), if_neg (by omega)]
    simp only [Int.toNat_natCast, readExact_append, map_mod_of_bytes hb]

end AmfHealth

/-- `toInt32` on values in `[2 ^ 31, 2 ^ 32)` wraps to a negative. -/
theorem toInt32_eq_of_ge {n : Nat} (h1 : 2 ^ 31 ≤ n) (h2 : n < 2 ^ 32) :
    toInt32 n = (n : Int) - 2 ^ 32 := by
  unfold toInt32
  rw [Nat.mod_eq_of_lt h2, if_neg (by omega)]

namespace AmfCnode

/-- Reassembling the four little-endian header bytes of `le4 n` yields
`n` back, for any 32-bit value. -/
theorem le4_parse {n : Nat} (h : n < 2 ^ 32) :
    n % 256 % 256 + n / 256 % 256 % 256 * 256 + n / 65536 % 256 % 256 * 65536 +
      n / 16777216 % 256 % 256 * 16777216 = n := by
  have h' : n < 4294967296 := by norm_num at h; exact h
  omega

/-- Successful path of `read_framed` on a frame produced by
`write_framed`: the payload is read back exactly and the reader returns
its length. -/
theorem read_framed_write_framed {p : List Nat} {max_len : Int}
    (rest : List Nat) (hb : ∀ b ∈ p, b < 256) (hlen : p.length < 2 ^ 31)
    (hml : (p.length : Int) ≤ max_len) :
    read_framed (write_framed p ++ rest) max_len =
      ((p.length : Int), p, rest) := by
  have h32 : p.length < 2 ^ 32 := lt_trans hlen (by norm_num)
  have hplen : p.length % 2 ^ 32 = p.length := Nat.mod_eq_of_lt h32
  rw [write_framed, hplen]
  simp only [le4, List.cons_append, List.nil_append, List.append_assoc]
  rw [read_framed]
  simp only [le4_parse h32]
  rcases Nat.eq_zero_or_pos p.length with h0 | hpos
  · rw [List.length_eq_zero] at h0
    subst h0
    simp
  · rw [if_neg (by omega), toInt32_eq_of_lt hlen]
    rw [if_neg (by omega), if_neg (by omega)]
    simp only [Int.toNat_natCast, readExact_append, map_mod_of_bytes hb]

end AmfCnode

namespace AmfCnode

/-- `read_framed` on a well-formed frame (4-byte LE length header for the
exact payload length) whose length passes the bound check: it returns
the length, stores the payload bytes, and leaves the rest of the
stream. -/
theorem read_framed_frame (p rest : List Nat) (max_len : Int)
    (hlen : p.length < 2 ^ 31) (hml : (p.length : Int) ≤ max_len) :
    read_framed (le4 p.length ++ (p ++ rest)) max_len =
      ((p.length : Int), p.map (fun b => b % 256), rest) := by
  have h32 : p.length < 2 ^ 32 := lt_trans hlen (by norm_num)
  simp only [le4, List.cons_append, List.nil_append]
  rw [read_framed]
  simp only [le4_parse h32]
  rcases Nat.eq_zero_or_pos p.length with h0 | hpos
  · rw [List.length_eq_zero] at h0
    subst h0
    simp
  · rw [if_neg (by omega), toInt32_eq_of_lt hlen]
    rw [if_neg (by omega), if_neg (by omega)]
    simp only [Int.toNat_natCast, readExact_append]

/-- The sleep loop runs to completion when the running flag stays set. -/
theorem sleep_loop_all (running : Nat → Bool) (h : ∀ t, running t = true) :
    ∀ rem slept, sleep_loop running slept rem = slept + rem := by
  intro rem
  induction rem with
  | zero => intro s; rfl
  | succ r ih =>
    intro s
    rw [sleep_loop, if_pos (h s), ih (s + 1)]
    omega

/-- The sleep loop stops by second `k` once the running flag reads false
at second `k`. -/
theorem sleep_loop_le (running : Nat → Bool) :
    ∀ rem slept k, slept ≤ k → running k = false →
      sleep_loop running slept rem ≤ k := by
  intro rem
  induction rem with
  | zero => intro s k hs _; exact hs
  | succ r ih =>
    intro s k hs hk
    rw [sleep_loop]
    by_cases hr : running s
    · rw [if_pos hr]
      rcases eq_or_lt_of_le hs with rfl | hlt
      · rw [hr] at hk; cases hk
      · exact ih (s + 1) k hlt hk
    · rw [if_neg hr]; exact hs

/-- The backoff variable after `n` doublings equals `min (2 ^ n) 30`. -/
theorem backoff_after_min : ∀ n, backoff_after n = min (2 ^ n) 30 := by
  intro n
  induction n with
  | zero => decide
  | succ n ih =>
    rcases le_or_lt n 4 with hn | hn
    · interval_cases n <;> decide
    · have h1 : 30 ≤ 2 ^ n :=
        le_trans (by norm_num) (Nat.pow_le_pow_right (by norm_num) hn)
      have h2 : 30 ≤ 2 ^ (n + 1) :=
        le_trans h1 (Nat.pow_le_pow_right (by norm_num) (by omega))
      rw [backoff_after, ih, min_eq_right h1, min_eq_right h2, backoff_step]
      norm_num

end AmfCnode

/-! ## Claim theorems -/

/-- Claim C2: whatever the client sends, the health server's
per-connection handler writes exactly the 3-byte Variant-V frame
`[0x02, 0x08, 0x01]` (`HealthCheckResponse` with status SERVING) before
closing; the request payload never affects the bytes written. -/
theorem health_response_constant (input : List Nat) :
    AmfHealth.handle_connection input = [2, 8, 1] := rfl

/-- Claim C8: calling `amf_health_close` / `amf_cnode_stop` a second
time, or before the corresponding open/start (or after a disabled-config
open/start, which leaves the initial state), returns leaving the
subsystem state unchanged. -/
theorem stop_close_idempotent :
    (∀ s, AmfHealth.amf_health_close (AmfHealth.amf_health_close s) =
      AmfHealth.amf_health_close s) ∧
    (∀ s, s.server_fd < 0 → AmfHealth.amf_health_close s = s) ∧
    AmfHealth.amf_health_close AmfHealth.health_init = AmfHealth.health_init ∧
    (∀ s, AmfCnode.amf_cnode_stop (AmfCnode.amf_cnode_stop s) =
      AmfCnode.amf_cnode_stop s) ∧
    (∀ s, s.g_running = false → AmfCnode.amf_cnode_stop s = s) ∧
    AmfCnode.amf_cnode_stop AmfCnode.cnode_init = AmfCnode.cnode_init := by
  refine ⟨fun s => ?_, fun s h => ?_, rfl, fun s => ?_, fun s h => ?_, rfl⟩
  · by_cases h : s.server_fd < 0 <;>
      simp [AmfHealth.amf_health_close, h]
  · simp [AmfHealth.amf_health_close, h]
  · by_cases h : s.g_running <;>
      simp [AmfCnode.amf_cnode_stop, h]
  · simp [AmfCnode.amf_cnode_stop, h]

/-- Witness for claim C8 at concrete states. -/
theorem stop_close_idempotent_witness :
    AmfHealth.amf_health_close { server_fd := -1, server_running := false } =
      { server_fd := -1, server_running := false } ∧
    AmfCnode.amf_cnode_stop { g_running := false } = { g_running := false } :=
  ⟨stop_close_idempotent.2.1 _ (by norm_num),
   stop_close_idempotent.2.2.2.2.1 _ rfl⟩

/-- Claim C9: a missing/disabled configuration silently disables the
subsystem: `amf_health_send_registration` spawns nothing when
registration is disabled or ip/port are unset, and `amf_cnode_start`
returns success without spawning when the enable flag is set to
something other than `"1"` or the server IP is unset/empty. -/
theorem disabled_config_noop :
    (∀ (en : Bool) (ip : List Nat) (port : Nat) (sok : Bool),
      en = false ∨ ip = [] ∨ port = 0 →
      AmfHealth.amf_health_send_registration en ip port sok = false) ∧
    (∀ (ee ei : Option (List Nat)) (sok : Bool),
      (∃ e, ee = some e ∧ e ≠ [49]) ∨ ei = none ∨ ei = some [] →
      AmfCnode.amf_cnode_start ee ei sok = (AmfCnode.OGS_OK, false)) := by
  constructor
  · rintro en ip port sok h
    rcases h with rfl | rfl | rfl
    · simp [AmfHealth.amf_health_send_registration]
    · cases en <;> simp [AmfHealth.amf_health_send_registration]
    · cases en <;> simp [AmfHealth.amf_health_send_registration]
  · rintro ee ei sok (⟨e, rfl, he⟩ | rfl | rfl)
    · simp [AmfCnode.amf_cnode_start, he]
    · cases ee with
      | none => simp [AmfCnode.amf_cnode_start, AmfCnode.amf_cnode_start_sub]
      | some e =>
        by_cases he : e = [49] <;>
          simp [AmfCnode.amf_cnode_start, AmfCnode.amf_cnode_start_sub, he]
    · cases ee with
      | none => simp [AmfCnode.amf_cnode_start, AmfCnode.amf_cnode_start_sub]
      | some e =>
        by_cases he : e = [49] <;>
          simp [AmfCnode.amf_cnode_start, AmfCnode.amf_cnode_start_sub, he]

/-- Witness for claim C9 at concrete configurations. -/
theorem disabled_config_noop_witness :
    AmfHealth.amf_health_send_registration false [49] 5 true = false ∧
    AmfCnode.amf_cnode_start (some [48]) (some [49, 46]) true =
      (AmfCnode.OGS_OK, false) :=
  ⟨disabled_config_noop.1 false [49] 5 true (Or.inl rfl),
   disabled_config_noop.2 (some [48]) (some [49, 46]) true
     (Or.inl ⟨[48], rfl, by decide⟩)⟩

/-- Claim C7 counterexample: at `{node_type=13, ip="10.0.0.1",
port=50051}`, the encoder emits `0x83 0x87 0x03` for the port — not the
`0xC3 0x86 0x03` the claim (following the spec) asserts, so the claimed
byte sequence is not produced. -/
theorem register_encode_counterexample :
    AmfHealth.do_registration_proto [49, 48, 46, 48, 46, 48, 46, 49] 50051 =
      some [8, 13, 18, 8, 49, 48, 46, 48, 46, 48, 46, 49, 24, 131, 135, 3] ∧
    AmfHealth.do_registration_proto [49, 48, 46, 48, 46, 48, 46, 49] 50051 ≠
      some [8, 13, 18, 8, 49, 48, 46, 48, 46, 48, 46, 49, 24, 195, 134, 3] := by
  constructor
  · rfl
  · decide

/-- Claim C7 (amended): the encoder output at
`{node_type=13, ip="10.0.0.1", port=50051}` is
`0x08 0x0D, 0x12 0x08, "10.0.0.1", 0x18` followed by the varint encoding
of 50051, which is `0x83 0x87 0x03`. -/
theorem register_encode_amended :
    AmfHealth.varint_encode 50051 10 = some [131, 135, 3] ∧
    AmfHealth.do_registration_proto [49, 48, 46, 48, 46, 48, 46, 49] 50051 =
      some ([8, 13] ++ [18, 8] ++ [49, 48, 46, 48, 46, 48, 46, 49] ++ [24] ++
        [131, 135, 3]) := by
  constructor
  · rfl
  · rfl

/-- Claim C1 counterexample: the Variant-V frame declaring payload
length `2 ^ 32 + 3 = 4294967299` (varint `83 80 80 80 10`), which
exceeds `max_len = 64`: `read_delimited` does not return an error — the
`uint64`-to-`int` truncation turns the length into 3, so it reads 3
payload bytes and returns 3. -/
theorem oversize_reject_counterexample :
    AmfHealth.readVarint 10 0 0 [131, 128, 128, 128, 16] =
      some (4294967299, []) ∧
    64 < 4294967299 ∧
    AmfHealth.read_delimited [131, 128, 128, 128, 16, 7, 8, 9] 64 =
      (3, [7, 8, 9], []) ∧
    (AmfHealth.read_delimited [131, 128, 128, 128, 16, 7, 8, 9] 64).1 ≠ -1 ∧
    (AmfHealth.read_delimited [131, 128, 128, 128, 16, 7, 8, 9] 64).2.1 ≠ [] := by
  refine ⟨by decide, by decide, by decide, by decide, by decide⟩

/-- Claim C1 (amended): a declared length is rejected with `-1` and no
payload bytes read exactly when its truncation to a signed 32-bit `int`
exceeds `max_len` — for the varint prefix this covers every declared
length in `(max_len, 2^31)` but not all of `(max_len, 2^64)`; for the
fixed 4-byte prefix every declared length in `(max_len, 2^32)` yields a
negative return (error as seen by the callers) with no payload bytes
read. -/
theorem oversize_rejected_amended :
    (∀ (L : Nat) (max_len : Int) (rest : List Nat),
      L < 2 ^ 64 → 0 ≤ max_len → max_len < toInt32 L →
      AmfHealth.read_delimited (AmfHealth.varintBytes L ++ rest) max_len =
        (-1, [], rest)) ∧
    (∀ (L : Nat) (max_len : Int) (rest : List Nat),
      0 ≤ max_len → max_len < (L : Int) → L < 2 ^ 32 →
      (AmfCnode.read_framed (AmfCnode.le4 L ++ rest) max_len).1 < 0 ∧
      (AmfCnode.read_framed (AmfCnode.le4 L ++ rest) max_len).2.1 = [] ∧
      (AmfCnode.read_framed (AmfCnode.le4 L ++ rest) max_len).2.2 = rest) := by
  constructor
  · intro L max_len rest hL hm hlt
    have hL0 : L ≠ 0 := by
      rintro rfl
      rw [show toInt32 0 = 0 from rfl] at hlt
      omega
    rw [AmfHealth.read_delimited, AmfHealth.readVarint_varintBytes hL rest]
    simp only [AmfHealth.read_body, if_neg hL0, if_pos hlt]
  · intro L max_len rest hm hml h32
    have hL0 : L ≠ 0 := by
      rcases Nat.eq_zero_or_pos L with rfl | h
      · simp at hml; omega
      · omega
    simp only [AmfCnode.le4, List.cons_append, List.nil_append]
    rw [AmfCnode.read_framed]
    simp only [AmfCnode.le4_parse h32]
    rw [if_neg hL0]
    by_cases hc : toInt32 L > max_len
    · rw [if_pos hc]
      exact ⟨by norm_num, rfl, rfl⟩
    · have hge : 2 ^ 31 ≤ L := by
        by_contra hlt31
        push_neg at hlt31
        rw [toInt32_eq_of_lt hlt31] at hc
        omega
      have hneg : toInt32 L < 0 := by
        rw [toInt32_eq_of_ge hge h32]
        have : (L : Int) < (2 : Int) ^ 32 := by exact_mod_cast h32
        omega
      rw [if_neg hc, if_pos (le_of_lt hneg)]
      exact ⟨hneg, rfl, rfl⟩

/-- Witness for the amended claim C1 at declared length 100 against
`max_len = 64`. -/
theorem oversize_rejected_amended_witness :
    AmfHealth.read_delimited (AmfHealth.varintBytes 100 ++ [1, 2]) 64 =
      (-1, [], [1, 2]) ∧
    ((AmfCnode.read_framed (AmfCnode.le4 100 ++ [1, 2]) 64).1 < 0 ∧
     (AmfCnode.read_framed (AmfCnode.le4 100 ++ [1, 2]) 64).2.1 = [] ∧
     (AmfCnode.read_framed (AmfCnode.le4 100 ++ [1, 2]) 64).2.2 = [1, 2]) :=
  ⟨oversize_rejected_amended.1 100 64 [1, 2] (by norm_num) (by norm_num)
     (by decide),
   oversize_rejected_amended.2 100 64 [1, 2] (by norm_num) (by norm_num)
     (by norm_num)⟩

/-- Claim C4: varint round-trip — decoding (with `read_delimited`'s
prefix loop) the bytes produced by `varint_encode` recovers every value
in `[0, 2^63)`, and encoding never emits more than 10 bytes for any
64-bit value. -/
theorem varint_round_trip (v : Nat) (rest : List Nat) :
    (v < 2 ^ 63 →
      AmfHealth.readVarint 10 0 0 (AmfHealth.varintBytes v ++ rest) =
        some (v, rest)) ∧
    (v < 2 ^ 64 →
      ∃ bs, AmfHealth.varint_encode v 10 = some bs ∧ bs.length ≤ 10) :=
  ⟨fun h => AmfHealth.readVarint_varintBytes (lt_trans h (by norm_num)) rest,
   fun h => ⟨AmfHealth.varintBytes v, (AmfHealth.varint_encode_ten h).1,
     (AmfHealth.varint_encode_ten h).2⟩⟩

/-- Witness for claim C4 at `v = 2^62 + 5`. -/
theorem varint_round_trip_witness :
    AmfHealth.readVarint 10 0 0
        (AmfHealth.varintBytes (2 ^ 62 + 5) ++ [9]) =
      some (2 ^ 62 + 5, [9]) ∧
    (∃ bs, AmfHealth.varint_encode (2 ^ 62 + 5) 10 = some bs ∧
      bs.length ≤ 10) :=
  ⟨(varint_round_trip (2 ^ 62 + 5) [9]).1 (by norm_num),
   (varint_round_trip (2 ^ 62 + 5) [9]).2 (by norm_num)⟩

/-- Claim C5: frame round-trip for both variants — writing any byte
payload of length at most `max_len` with `write_delimited` /
`write_framed` and reading it back with `read_delimited` / `read_framed`
yields the identical bytes and length (including the zero-length payload
as a legal empty frame, return value `0` rather than the error `-1`). -/
theorem frame_round_trip (data rest : List Nat) (max_len : Int)
    (hb : ∀ b ∈ data, b < 256) (hml : (data.length : Int) ≤ max_len)
    (hcap : max_len < 2 ^ 31) :
    (∃ w, AmfHealth.write_delimited data = some w ∧
      AmfHealth.read_delimited (w ++ rest) max_len =
        ((data.length : Int), data, rest)) ∧
    AmfCnode.read_framed (AmfCnode.write_framed data ++ rest) max_len =
      ((data.length : Int), data, rest) := by
  have hlen31 : data.length < 2 ^ 31 := by
    have h1 : (data.length : Int) < 2 ^ 31 := lt_of_le_of_lt hml hcap
    exact_mod_cast h1
  have hlen64 : data.length < 2 ^ 64 := lt_trans hlen31 (by norm_num)
  constructor
  · refine ⟨AmfHealth.varintBytes data.length ++ data, ?_, ?_⟩
    · rw [AmfHealth.write_delimited, (AmfHealth.varint_encode_ten hlen64).1]
    · rw [List.append_assoc, AmfHealth.read_delimited,
        AmfHealth.readVarint_varintBytes hlen64 (data ++ rest)]
      exact AmfHealth.read_body_payload hb hlen31 hml
  · exact AmfCnode.read_framed_write_framed rest hb hlen31 hml

/-- Witness for claim C5 with payload `[1, 2]` and `max_len = 64`. -/
theorem frame_round_trip_witness :
    (∃ w, AmfHealth.write_delimited [1, 2] = some w ∧
      AmfHealth.read_delimited (w ++ [9]) 64 =
        ((List.length [1, 2] : Int), [1, 2], [9])) ∧
    AmfCnode.read_framed (AmfCnode.write_framed [1, 2] ++ [9]) 64 =
      ((List.length [1, 2] : Int), [1, 2], [9]) :=
  frame_round_trip [1, 2] [9] 64 (by decide) (by decide) (by decide)

/-- Claim C3: in the cnode session loop (after the identity frame), any
Variant-F frame the peer sends — whatever its payload `X` — is answered
with exactly one Variant-F frame whose payload is `[0x08, 0x01]`, and
the loop proceeds with the rest of the stream. -/
theorem cnode_frame_response (X rest : List Nat) (fuel : Nat)
    (h : X.length ≤ 256) :
    AmfCnode.serve_loop (fuel + 1) (AmfCnode.le4 X.length ++ X ++ rest) =
      AmfCnode.write_framed AmfCnode.HEALTH_RESP_SERVING ++
        AmfCnode.serve_loop fuel rest := by
  have hlen31 : X.length < 2 ^ 31 := lt_of_le_of_lt h (by norm_num)
  have hml : (X.length : Int) ≤ 256 := by exact_mod_cast h
  have hr := AmfCnode.read_framed_frame X rest 256 hlen31 hml
  rw [List.append_assoc]
  rw [AmfCnode.serve_loop]
  have hnn : ¬ ((X.length : Int) < 0) := by omega
  simp only [AmfCnode.session_step, hr, hnn, if_false, ite_false]

/-- Witness for claim C3: a 1-byte payload `[0xAB]`. -/
theorem cnode_frame_response_witness :
    AmfCnode.serve_loop 1 (AmfCnode.le4 (List.length [171]) ++ [171] ++ []) =
      AmfCnode.write_framed AmfCnode.HEALTH_RESP_SERVING ++
        AmfCnode.serve_loop 0 [] :=
  cnode_frame_response [171] [] 0 (by decide)

/-- Claim C6: after `N ≥ 1` consecutive failed session cycles, the
backoff delay before the next connection attempt is
`min (2 ^ (N-1), 30)` seconds (start 1 s, doubled per failure, capped at
30 s); the sleep is taken in 1-second increments rechecking the running
flag, so it ends by second `k` whenever the flag reads false at `k`. -/
theorem cnode_backoff_wait (running : Nat → Bool) (N : Nat) (hN : 1 ≤ N) :
    ((∀ t, running t = true) →
      AmfCnode.backoff_delay running (AmfCnode.backoff_after (N - 1)) =
        min (2 ^ (N - 1)) 30) ∧
    (∀ k, running k = false →
      AmfCnode.backoff_delay running (AmfCnode.backoff_after (N - 1)) ≤ k) := by
  constructor
  · intro h
    rw [AmfCnode.backoff_delay, AmfCnode.sleep_loop_all running h,
      AmfCnode.backoff_after_min]
    omega
  · intro k hk
    exact AmfCnode.sleep_loop_le running _ 0 k (Nat.zero_le k) hk

/-- Witness for claim C6 at `N = 6` with the flag always set:
`min (2^5, 30) = 30` seconds. -/
theorem cnode_backoff_wait_witness :
    AmfCnode.backoff_delay (fun _ => true) (AmfCnode.backoff_after (6 - 1)) =
      min (2 ^ (6 - 1)) 30 :=
  (cnode_backoff_wait (fun _ => true) 6 (by norm_num)).1 (fun _ => rfl)

/-- One continuation step of the prefix loop: a byte with the high bit
set folds its low 7 bits into the accumulator and continues. -/
theorem readVarint_cons_cont {b : Nat} (hb1 : 128 ≤ b) (hb2 : b < 256)
    (fuel acc shift : Nat) (s : List Nat) :
    AmfHealth.readVarint (fuel + 1) acc shift (b :: s) =
      AmfHealth.readVarint fuel ((acc ||| (b % 128) <<< shift) % 2 ^ 64)
        (shift + 7) s := by
  simp only [AmfHealth.readVarint, Nat.mod_eq_of_lt hb2]
  rw [if_neg (by omega)]

/-- Claim C10: ten consecutive bytes with the continuation bit set do
not make the prefix loop fail — it stops after exactly those 10 bytes
and hands the value accumulated from their low 7 bits (shifted by
`0, 7, …, 63`, taken modulo `2 ^ 64`) to the empty/oversize/body
decision of `read_delimited`. -/
theorem varint_ten_continuation
    (b0 b1 b2 b3 b4 b5 b6 b7 b8 b9 : Nat) (rest : List Nat) (max_len : Int)
    (h : ∀ b ∈ [b0, b1, b2, b3, b4, b5, b6, b7, b8, b9],
      128 ≤ b ∧ b < 256) :
    AmfHealth.readVarint 10 0 0
        ([b0, b1, b2, b3, b4, b5, b6, b7, b8, b9] ++ rest) =
      some ((b0 % 128 + b1 % 128 * 2 ^ 7 + b2 % 128 * 2 ^ 14 +
        b3 % 128 * 2 ^ 21 + b4 % 128 * 2 ^ 28 + b5 % 128 * 2 ^ 35 +
        b6 % 128 * 2 ^ 42 + b7 % 128 * 2 ^ 49 + b8 % 128 * 2 ^ 56 +
        b9 % 128 * 2 ^ 63) % 2 ^ 64, rest) ∧
    AmfHealth.read_delimited
        ([b0, b1, b2, b3, b4, b5, b6, b7, b8, b9] ++ rest) max_len =
      AmfHealth.read_body ((b0 % 128 + b1 % 128 * 2 ^ 7 + b2 % 128 * 2 ^ 14 +
        b3 % 128 * 2 ^ 21 + b4 % 128 * 2 ^ 28 + b5 % 128 * 2 ^ 35 +
        b6 % 128 * 2 ^ 42 + b7 % 128 * 2 ^ 49 + b8 % 128 * 2 ^ 56 +
        b9 % 128 * 2 ^ 63) % 2 ^ 64) rest max_len := by
  have e0 := h b0 (by simp)
  have e1 := h b1 (by simp)
  have e2 := h b2 (by simp)
  have e3 := h b3 (by simp)
  have e4 := h b4 (by simp)
  have e5 := h b5 (by simp)
  have e6 := h b6 (by simp)
  have e7 := h b7 (by simp)
  have e8 := h b8 (by simp)
  have e9 := h b9 (by simp)
  have p7 : (2 : Nat) ^ 7 = 128 := by norm_num
  have p14 : (2 : Nat) ^ 14 = 16384 := by norm_num
  have p21 : (2 : Nat) ^ 21 = 2097152 := by norm_num
  have p28 : (2 : Nat) ^ 28 = 268435456 := by norm_num
  have p35 : (2 : Nat) ^ 35 = 34359738368 := by norm_num
  have p42 : (2 : Nat) ^ 42 = 4398046511104 := by norm_num
  have p49 : (2 : Nat) ^ 49 = 562949953421312 := by norm_num
  have p56 : (2 : Nat) ^ 56 = 72057594037927936 := by norm_num
  have p63 : (2 : Nat) ^ 63 = 9223372036854775808 := by norm_num
  have p64 : (2 : Nat) ^ 64 = 18446744073709551616 := by norm_num
  have a0 : (0 ||| (b0 % 128) <<< 0) % 2 ^ 64 = b0 % 128 := by
    rw [Nat.zero_or, Nat.shiftLeft_eq, pow_zero, Nat.mul_one,
      Nat.mod_eq_of_lt (by omega)]
  have a1 : (b0 % 128 ||| (b1 % 128) <<< 7) % 2 ^ 64 =
      b0 % 128 + b1 % 128 * 2 ^ 7 := by
    rw [lor_shl_eq_add (show b0 % 128 < 2 ^ 7 by omega),
      Nat.mod_eq_of_lt (by omega)]
  have a2 : (b0 % 128 + b1 % 128 * 2 ^ 7 ||| (b2 % 128) <<< 14) % 2 ^ 64 =
      b0 % 128 + b1 % 128 * 2 ^ 7 + b2 % 128 * 2 ^ 14 := by
    rw [lor_shl_eq_add (show b0 % 128 + b1 % 128 * 2 ^ 7 < 2 ^ 14 by omega),
      Nat.mod_eq_of_lt (by omega)]
  have a3 : (b0 % 128 + b1 % 128 * 2 ^ 7 + b2 % 128 * 2 ^ 14 |||
      (b3 % 128) <<< 21) % 2 ^ 64 =
      b0 % 128 + b1 % 128 * 2 ^ 7 + b2 % 128 * 2 ^ 14 +
        b3 % 128 * 2 ^ 21 := by
    rw [lor_shl_eq_add (show b0 % 128 + b1 % 128 * 2 ^ 7 +
        b2 % 128 * 2 ^ 14 < 2 ^ 21 by omega),
      Nat.mod_eq_of_lt (by omega)]
  have a4 : (b0 % 128 + b1 % 128 * 2 ^ 7 + b2 % 128 * 2 ^ 14 +
      b3 % 128 * 2 ^ 21 ||| (b4 % 128) <<< 28) % 2 ^ 64 =
      b0 % 128 + b1 % 128 * 2 ^ 7 + b2 % 128 * 2 ^ 14 +
        b3 % 128 * 2 ^ 21 + b4 % 128 * 2 ^ 28 := by
    rw [lor_shl_eq_add (show b0 % 128 + b1 % 128 * 2 ^ 7 +
        b2 % 128 * 2 ^ 14 + b3 % 128 * 2 ^ 21 < 2 ^ 28 by omega),
      Nat.mod_eq_of_lt (by omega)]
  have a5 : (b0 % 128 + b1 % 128 * 2 ^ 7 + b2 % 128 * 2 ^ 14 +
      b3 % 128 * 2 ^ 21 + b4 % 128 * 2 ^ 28 ||| (b5 % 128) <<< 35) % 2 ^ 64 =
      b0 % 128 + b1 % 128 * 2 ^ 7 + b2 % 128 * 2 ^ 14 +
        b3 % 128 * 2 ^ 21 + b4 % 128 * 2 ^ 28 + b5 % 128 * 2 ^ 35 := by
    rw [lor_shl_eq_add (show b0 % 128 + b1 % 128 * 2 ^ 7 +
        b2 % 128 * 2 ^ 14 + b3 % 128 * 2 ^ 21 + b4 % 128 * 2 ^ 28 <
          2 ^ 35 by omega),
      Nat.mod_eq_of_lt (by omega)]
  have a6 : (b0 % 128 + b1 % 128 * 2 ^ 7 + b2 % 128 * 2 ^ 14 +
      b3 % 128 * 2 ^ 21 + b4 % 128 * 2 ^ 28 + b5 % 128 * 2 ^ 35 |||
      (b6 % 128) <<< 42) % 2 ^ 64 =
      b0 % 128 + b1 % 128 * 2 ^ 7 + b2 % 128 * 2 ^ 14 +
        b3 % 128 * 2 ^ 21 + b4 % 128 * 2 ^ 28 + b5 % 128 * 2 ^ 35 +
        b6 % 128 * 2 ^ 42 := by
    rw [lor_shl_eq_add (show b0 % 128 + b1 % 128 * 2 ^ 7 +
        b2 % 128 * 2 ^ 14 + b3 % 128 * 2 ^ 21 + b4 % 128 * 2 ^ 28 +
          b5 % 128 * 2 ^ 35 < 2 ^ 42 by omega),
      Nat.mod_eq_of_lt (by omega)]
  have a7 : (b0 % 128 + b1 % 128 * 2 ^ 7 + b2 % 128 * 2 ^ 14 +
      b3 % 128 * 2 ^ 21 + b4 % 128 * 2 ^ 28 + b5 % 128 * 2 ^ 35 +
      b6 % 128 * 2 ^ 42 ||| (b7 % 128) <<< 49) % 2 ^ 64 =
      b0 % 128 + b1 % 128 * 2 ^ 7 + b2 % 128 * 2 ^ 14 +
        b3 % 128 * 2 ^ 21 + b4 % 128 * 2 ^ 28 + b5 % 128 * 2 ^ 35 +
        b6 % 128 * 2 ^ 42 + b7 % 128 * 2 ^ 49 := by
    rw [lor_shl_eq_add (show b0 % 128 + b1 % 128 * 2 ^ 7 +
        b2 % 128 * 2 ^ 14 + b3 % 128 * 2 ^ 21 + b4 % 128 * 2 ^ 28 +
          b5 % 128 * 2 ^ 35 + b6 % 128 * 2 ^ 42 < 2 ^ 49 by omega),
      Nat.mod_eq_of_lt (by omega)]
  have a8 : (b0 % 128 + b1 % 128 * 2 ^ 7 + b2 % 128 * 2 ^ 14 +
      b3 % 128 * 2 ^ 21 + b4 % 128 * 2 ^ 28 + b5 % 128 * 2 ^ 35 +
      b6 % 128 * 2 ^ 42 + b7 % 128 * 2 ^ 49 ||| (b8 % 128) <<< 56) % 2 ^ 64 =
      b0 % 128 + b1 % 128 * 2 ^ 7 + b2 % 128 * 2 ^ 14 +
        b3 % 128 * 2 ^ 21 + b4 % 128 * 2 ^ 28 + b5 % 128 * 2 ^ 35 +
        b6 % 128 * 2 ^ 42 + b7 % 128 * 2 ^ 49 + b8 % 128 * 2 ^ 56 := by
    rw [lor_shl_eq_add (show b0 % 128 + b1 % 128 * 2 ^ 7 +
        b2 % 128 * 2 ^ 14 + b3 % 128 * 2 ^ 21 + b4 % 128 * 2 ^ 28 +
          b5 % 128 * 2 ^ 35 + b6 % 128 * 2 ^ 42 + b7 % 128 * 2 ^ 49 <
          2 ^ 56 by omega),
      Nat.mod_eq_of_lt (by omega)]
  have a9 : (b0 % 128 + b1 % 128 * 2 ^ 7 + b2 % 128 * 2 ^ 14 +
      b3 % 128 * 2 ^ 21 + b4 % 128 * 2 ^ 28 + b5 % 128 * 2 ^ 35 +
      b6 % 128 * 2 ^ 42 + b7 % 128 * 2 ^ 49 + b8 % 128 * 2 ^ 56 |||
      (b9 % 128) <<< 63) % 2 ^ 64 =
      (b0 % 128 + b1 % 128 * 2 ^ 7 + b2 % 128 * 2 ^ 14 +
        b3 % 128 * 2 ^ 21 + b4 % 128 * 2 ^ 28 + b5 % 128 * 2 ^ 35 +
        b6 % 128 * 2 ^ 42 + b7 % 128 * 2 ^ 49 + b8 % 128 * 2 ^ 56 +
        b9 % 128 * 2 ^ 63) % 2 ^ 64 := by
    rw [lor_shl_eq_add (show b0 % 128 + b1 % 128 * 2 ^ 7 +
        b2 % 128 * 2 ^ 14 + b3 % 128 * 2 ^ 21 + b4 % 128 * 2 ^ 28 +
          b5 % 128 * 2 ^ 35 + b6 % 128 * 2 ^ 42 + b7 % 128 * 2 ^ 49 +
          b8 % 128 * 2 ^ 56 < 2 ^ 63 by omega)]
  have hdec : AmfHealth.readVarint 10 0 0
      ([b0, b1, b2, b3, b4, b5, b6, b7, b8, b9] ++ rest) =
      some ((b0 % 128 + b1 % 128 * 2 ^ 7 + b2 % 128 * 2 ^ 14 +
        b3 % 128 * 2 ^ 21 + b4 % 128 * 2 ^ 28 + b5 % 128 * 2 ^ 35 +
        b6 % 128 * 2 ^ 42 + b7 % 128 * 2 ^ 49 + b8 % 128 * 2 ^ 56 +
        b9 % 128 * 2 ^ 63) % 2 ^ 64, rest) := by
    simp only [List.cons_append, List.nil_append]
    rw [readVarint_cons_cont e0.1 e0.2, a0,
      readVarint_cons_cont e1.1 e1.2, a1,
      readVarint_cons_cont e2.1 e2.2, a2,
      readVarint_cons_cont e3.1 e3.2, a3,
      readVarint_cons_cont e4.1 e4.2, a4,
      readVarint_cons_cont e5.1 e5.2, a5,
      readVarint_cons_cont e6.1 e6.2, a6,
      readVarint_cons_cont e7.1 e7.2, a7,
      readVarint_cons_cont e8.1 e8.2, a8,
      readVarint_cons_cont e9.1 e9.2, a9,
      AmfHealth.readVarint]
  exact ⟨hdec, by rw [AmfHealth.read_delimited, hdec]⟩

/-- Witness for claim C10 at the concrete high-bit bytes `200..209`. -/
theorem varint_ten_continuation_witness :
    AmfHealth.readVarint 10 0 0
        ([200, 201, 202, 203, 204, 205, 206, 207, 208, 209] ++ [7]) =
      some ((200 % 128 + 201 % 128 * 2 ^ 7 + 202 % 128 * 2 ^ 14 +
        203 % 128 * 2 ^ 21 + 204 % 128 * 2 ^ 28 + 205 % 128 * 2 ^ 35 +
        206 % 128 * 2 ^ 42 + 207 % 128 * 2 ^ 49 + 208 % 128 * 2 ^ 56 +
        209 % 128 * 2 ^ 63) % 2 ^ 64, [7]) ∧
    AmfHealth.read_delimited
        ([200, 201, 202, 203, 204, 205, 206, 207, 208, 209] ++ [7]) 64 =
      AmfHealth.read_body ((200 % 128 + 201 % 128 * 2 ^ 7 +
        202 % 128 * 2 ^ 14 + 203 % 128 * 2 ^ 21 + 204 % 128 * 2 ^ 28 +
        205 % 128 * 2 ^ 35 + 206 % 128 * 2 ^ 42 + 207 % 128 * 2 ^ 49 +
        208 % 128 * 2 ^ 56 + 209 % 128 * 2 ^ 63) % 2 ^ 64) [7] 64 :=
  varint_ten_continuation 200 201 202 203 204 205 206 207 208 209 [7] 64
    (by decide)
